import Mathlib

/-!
Shallow embedding of the WallexBot trade-ingestion pipeline.

Source files embedded here:
  * `src/main.py` — `handle_trade` (merge & dedup buffer, cadence trigger)
    and the batch-merge part of `polling_loop`;
  * `src/engine/trading_engine.py` — `_format_quantity`, `decide_order`;
  * `src/llm/gemini_client.py` — `GeminiClient.analyze`;
  * `src/wallex/ws_client.py` — subscription set and the `connect`
    event handler.

Numeric model: Python ints are `Int`, Python floats are `Rat` (exact
rationals; at every input used in the theorems below the binary double
behaves like the exact rational, which we checked separately for the
one near-tie the spec exercises).
-/

/-- A Python value found under one of the keys of a raw trade dict,
as seen by the defensive extraction in `main.py` lines 38-47.
  * `absent`  — key missing, value `None`, or the empty string
    (all falsy and not convertible, so they behave alike in the
    `or`-chains);
  * `num v`   — a Python number; falsy exactly when `v = 0`;
  * `numstr v`— a numeric string literal (always truthy; `float` parses
    it, `int` parses it only when it is an integer literal);
  * `junk`    — any other truthy value, on which `int()`/`float()`
    raise (the `except` then yields the 0 default). -/
inductive RawField where
  | absent
  | num (v : ℚ)
  | numstr (v : ℚ)
  | junk
deriving DecidableEq

/-- Python truthiness of a `RawField`. -/
def RawField.truthy : RawField → Bool
  | .absent => false
  | .num v => v != 0
  | .numstr _ => true
  | .junk => true

/-- A raw trade dict, restricted to the keys the pipeline reads:
`ts`/`T`/`t` for the timestamp and `price`/`p` for the price
(`main.py` lines 40,43). Other keys are never consulted. -/
structure TradeEvent where
  ts : RawField
  T : RawField
  t : RawField
  price : RawField
  p : RawField
deriving DecidableEq

/-- First truthy value of a Python `or`-chain (falsy values are
skipped; if all operands are falsy the chain yields the last one,
which in both chains of `main.py` behaves like `absent`/0). -/
def firstTruthy (fields : List RawField) : RawField :=
  match fields.find? RawField.truthy with
  | some f => f
  | none => .absent

/-- `int(v)` for a numeric Python value truncates toward zero. -/
def intTrunc (v : ℚ) : ℤ :=
  if 0 ≤ v then ⌊v⌋ else ⌈v⌉

/-- Timestamp extraction, `main.py` lines 39-42:
`ts = int(data.get("ts") or data.get("T") or data.get("t") or 0)`
wrapped in `try/except` that yields 0.  `int` of a non-integer
numeric string raises, hence the `den = 1` guard. -/
def extract_ts (e : TradeEvent) : ℤ :=
  match firstTruthy [e.ts, e.T, e.t] with
  | .absent => 0
  | .num v => intTrunc v
  | .numstr v => if v.den = 1 then v.num else 0
  | .junk => 0

/-- Price extraction, `main.py` lines 43-47:
`price_val = data.get("price") or data.get("p")` then
`float(price_val) if price_val is not None else 0.0`, with
`except` yielding `0.0`. -/
def extract_price (e : TradeEvent) : ℚ :=
  match firstTruthy [e.price, e.p] with
  | .absent => 0
  | .num v => v
  | .numstr v => v
  | .junk => 0

/-- The mutable closure state of `run()` that `handle_trade` touches:
`last_trade_ts` (the Watermark), `recent_trades` (the RecentWindow)
and `last_activity` (the Activity Clock, wall-clock `time.time()`
modelled as a `ℕ` supplied per call). -/
structure BufState where
  last_trade_ts : ℤ
  recent_trades : List TradeEvent
  last_activity : ℕ
deriving DecidableEq

/-- Outcome of one `handle_trade` call: the new state, whether the
event was accepted (i.e. the early `return`s were not taken), whether
the decision trigger fired, and the window slice handed to the LLM
when it did (`recent_trades[-20:]`). -/
structure StepResult where
  state : BufState
  accepted : Bool
  triggered : Bool
  llm_window : List TradeEvent
deriving DecidableEq

/-- `handle_trade` from `main.py` lines 34-65.  `llm_enabled` models
`llm` being non-`None`; `now` is the value `time.time()` returns
during this call.  The order-placement tail (lines 66-77) only
consumes the trigger's decision and is out of scope here; `triggered`
records that the `llm.analyze`/`decide_order` branch was entered. -/
def handle_trade (llm_enabled : Bool) (now : ℕ) (s : BufState) (d : TradeEvent) :
    StepResult :=
  let ts := extract_ts d
  let price := extract_price d
  if ts ≠ 0 ∧ ts ≤ s.last_trade_ts then
    ⟨s, false, false, []⟩
  else
    let wm := if ts ≠ 0 then ts else s.last_trade_ts
    let recent0 := s.recent_trades ++ [d]
    let recent := if recent0.length > 200 then recent0.rtake 200 else recent0
    let trig : Bool :=
      llm_enabled && decide (recent.length % 6 = 0) && decide (0 < price)
    ⟨⟨wm, recent, now⟩, true, trig, if trig then recent.rtake 20 else []⟩

/-- A whole run through the buffer: final state, the subsequence of
accepted events in order, and per input event whether the decision
trigger fired on it. -/
structure RunResult where
  state : BufState
  accepted : List TradeEvent
  fires : List Bool
deriving DecidableEq

/-- Fold the events (each paired with its wall-clock arrival time)
through `handle_trade`, recording the accepted subsequence and the
trigger firings. -/
def runBuffer (llm_enabled : Bool) (s : BufState) :
    List (ℕ × TradeEvent) → RunResult
  | [] => ⟨s, [], []⟩
  | (n, e) :: rest =>
    let r := handle_trade llm_enabled n s e
    let rr := runBuffer llm_enabled r.state rest
    ⟨rr.state, (if r.accepted then [e] else []) ++ rr.accepted,
      r.triggered :: rr.fires⟩

/-- The initial buffer state of `run()`: `last_trade_ts = 0`,
`recent_trades = []`, `last_activity` set at startup (a parameter). -/
def buf_init (a0 : ℕ) : BufState := ⟨0, [], a0⟩

/-- An event whose `ts` key holds the integer `n` and whose `price`
key holds the number `pr`; the other keys are missing. -/
def mkSimpleEvent (n : ℤ) (pr : ℚ) : TradeEvent :=
  ⟨.num (n : ℚ), .absent, .absent, .num pr, .absent⟩

example : extract_ts (mkSimpleEvent 7 1) = 7 := by decide
example : extract_price (mkSimpleEvent 7 (mkRat 3 2)) = mkRat 3 2 := by decide
example :
    (handle_trade true 5 (buf_init 0) (mkSimpleEvent 7 1)).accepted = true := by
  decide

/-- The failing input for the cadence claim: 204 events, all accepted
(strictly increasing fresh timestamps 1..204) and all with positive
price 1 — the 204th completes a multiple of 6 accepted events. -/
def evs204 : List (ℕ × TradeEvent) :=
  (List.range 204).map (fun i => (i, mkSimpleEvent ((i : ℤ) + 1) 1))


/-! ## Poll feed merge (`main.py`, `polling_loop` lines 120-134)

The loop body after candidate extraction: duplicate of `_extract_ts`
is `extract_ts` above (same `or`-chain and `try/except`).  Records are
sorted ascending by best-effort timestamp and fed one by one; a record
with non-zero timestamp that does not exceed the current watermark is
skipped (`continue`), every other record goes through `handle_trade`
and bumps `new_count`. -/

/-- One pass over the already-sorted candidate list.  Returns the
final buffer state, `new_count` and the list of records fed to
`handle_trade`, in feed order. -/
def poll_feed_go (llm_enabled : Bool) (now : ℕ) (s : BufState) :
    List TradeEvent → BufState × ℕ × List TradeEvent
  | [] => (s, 0, [])
  | tr :: rest =>
    let ts := extract_ts tr
    if ts ≠ 0 ∧ ts ≤ s.last_trade_ts then
      poll_feed_go llm_enabled now s rest
    else
      let r := handle_trade llm_enabled now s tr
      let rec0 := poll_feed_go llm_enabled now r.state rest
      (rec0.1, rec0.2.1 + 1, tr :: rec0.2.2)

/-- The key order of `sorted(candidates, key=_extract_ts)`:
comparison of best-effort timestamps. -/
def tsLe (a b : TradeEvent) : Prop :=
  extract_ts a ≤ extract_ts b

instance : DecidableRel tsLe := fun a b => Int.decLe (extract_ts a) (extract_ts b)

instance : IsTotal TradeEvent tsLe := ⟨fun a b => Int.le_total (extract_ts a) (extract_ts b)⟩

instance : IsTrans TradeEvent tsLe := ⟨fun _ _ _ => le_trans⟩

/-- The merge part of one polling pass: Python's stable `sorted(...,
key=_extract_ts)` is modelled by the stable `insertionSort` under the
total preorder `tsLe`, then the sorted records are fed. -/
def poll_feed (llm_enabled : Bool) (now : ℕ) (s : BufState)
    (candidates : List TradeEvent) : BufState × ℕ × List TradeEvent :=
  poll_feed_go llm_enabled now s (candidates.insertionSort tsLe)

/-! ## Sizing engine (`src/engine/trading_engine.py`)

`LLMDecision.action` is a `Literal` annotation in `models/types.py`,
but dataclasses do not enforce `Literal` at runtime, so the field is
an arbitrary string here, exactly as at runtime. -/

/-- `LLMDecision` from `src/models/types.py`. -/
structure LLMDecision where
  action : String
  confidence : ℚ
  reason : String
  stop_loss : Option ℚ := none
  take_profit : Option ℚ := none
deriving DecidableEq

/-- `OrderRequest` from `src/models/types.py`. -/
structure OrderRequest where
  symbol : String
  side : String
  type : String
  quantity : ℚ
  price : Option ℚ := none
deriving DecidableEq

/-- The `TradingEngine` fields consulted by `decide_order`
(`position` is never read there). -/
structure TradingEngine where
  symbol : String
  quote_amount : ℚ

/-- `float(f"{q:.6f}")`: round to 6 decimal places, ties to even
(Python's formatting of a double; exact over ℚ — at the one near-tie
input the theorems use, 5e-7, the double also rounds down, agreeing
with the exact tie-to-even result). -/
def pyRound6 (q : ℚ) : ℚ :=
  let scaled := q * 1000000
  let fl := ⌊scaled⌋
  let frac := scaled - (fl : ℚ)
  let r : ℤ :=
    if frac < 1/2 then fl
    else if 1/2 < frac then fl + 1
    else if fl % 2 = 0 then fl else fl + 1
  (r : ℚ) / 1000000

/-- `TradingEngine._format_quantity`, lines 14-21. -/
def format_quantity (qty : ℚ) : ℚ :=
  let q := max qty 0
  let q := pyRound6 q
  if q < 1/1000000 then 0 else q

/-- `TradingEngine.decide_order`, lines 23-37. -/
def decide_order (eng : TradingEngine) (price : ℚ) (decision : LLMDecision) :
    Option OrderRequest :=
  if decision.action = "flat" then none
  else if price ≤ 0 then none
  else
    let side := if decision.action = "long" then "BUY" else "SELL"
    let raw_qty := eng.quote_amount / price
    let qty := format_quantity raw_qty
    if qty ≤ 0 then none
    else some ⟨eng.symbol, side, "MARKET", qty, none⟩

/-! ## Decision function (`src/llm/gemini_client.py`, `analyze`)

The response body is modelled as a JSON value; the `requests` call
(including `raise_for_status` and `resp.json()` failures, all of which
are `requests.RequestException` in current `requests`) is modelled as
`Except String JVal`, the error string being the exception text.
Python operations that can raise on ill-shaped values (`.get` on a
non-dict, iteration of a number, `"text" in 5`, string concatenation
with a non-string) are modelled in an error monad; only the branches
the source wraps in `try/except` are collapsed. -/

/-- A JSON value as decoded by `resp.json()`. -/
inductive JVal where
  | jnull
  | jbool (b : Bool)
  | jnum (v : ℚ)
  | jstr (s : String)
  | jarr (xs : List JVal)
  | jobj (kvs : List (String × JVal))

/-- The uncaught exceptions the extraction code can raise. -/
inductive PyErr where
  | attributeError
  | typeError
deriving DecidableEq

/-- `dict.get(k, dflt)` on an object's key/value list. -/
def jGetD (kvs : List (String × JVal)) (k : String) (dflt : JVal) : JVal :=
  match kvs.find? (fun kv => kv.1 == k) with
  | some kv => kv.2
  | none => dflt

/-- `v.get(k, dflt)`: only dicts have `.get`; anything else raises
`AttributeError`. -/
def pyGet (v : JVal) (k : String) (dflt : JVal) : Except PyErr JVal :=
  match v with
  | .jobj kvs => .ok (jGetD kvs k dflt)
  | _ => .error .attributeError

/-- `for x in v`: lists yield their elements, strings their
characters, dicts their keys; numbers, booleans and `None` raise
`TypeError`. -/
def pyIter (v : JVal) : Except PyErr (List JVal) :=
  match v with
  | .jarr xs => .ok xs
  | .jstr s => .ok (s.toList.map (fun c => .jstr (String.mk [c])))
  | .jobj kvs => .ok (kvs.map (fun kv => .jstr kv.1))
  | _ => .error .typeError

/-- `"text" in p`: key test for dicts, substring test for strings,
`==`-membership for lists (only the string `"text"` itself compares
equal to `"text"`); raises `TypeError` otherwise. -/
def pyContainsText (p : JVal) : Except PyErr Bool :=
  match p with
  | .jobj kvs => .ok (kvs.any (fun kv => kv.1 == "text"))
  | .jstr s => .ok ((s.splitOn "text").length > 1)
  | .jarr xs =>
    .ok (xs.any (fun x => match x with | .jstr s => s == "text" | _ => false))
  | _ => .error .typeError

/-- `p["text"]`: lookup for dicts (preceded by the `in` test in the
source, so the key is present); list/string indexing with a string
key raises `TypeError`. -/
def pyIndexText (p : JVal) : Except PyErr JVal :=
  match p with
  | .jobj kvs =>
    match kvs.find? (fun kv => kv.1 == "text") with
    | some kv => .ok kv.2
    | none => .error .typeError
  | _ => .error .typeError

/-- Body of the inner `for p in parts` loop (`gemini_client.py`
lines 44-46): `if "text" in p: text += p["text"] + "\n"`. -/
def partStep (text : String) (p : JVal) : Except PyErr String := do
  let b ← pyContainsText p
  if b then
    let tv ← pyIndexText p
    match tv with
    | .jstr s => pure (text ++ s ++ "\n")
    | _ => .error .typeError
  else
    pure text

/-- Body of the outer `for cand in data.get("candidates", [])` loop
(lines 42-46). -/
def candStep (text : String) (cand : JVal) : Except PyErr String := do
  let content ← pyGet cand "content" (.jobj [])
  let parts ← pyGet content "parts" (.jarr [])
  let partList ← pyIter parts
  partList.foldlM partStep text

/-- Lines 41-46: accumulate the text of all candidate parts. -/
def extract_text (data : JVal) : Except PyErr String := do
  let cands ← pyGet data "candidates" (.jarr [])
  let candList ← pyIter cands
  candList.foldlM candStep ""

/-- `re.search(r"\x7b[\s\S]*\x7d", text)`: the greedy match runs from
the first opening brace to the last closing brace at or after it. -/
def extract_braced (s : String) : Option String :=
  let cs := s.toList
  match cs.findIdx? (fun c => c == '{') with
  | none => none
  | some i =>
    match cs.reverse.findIdx? (fun c => c == '}') with
    | none => none
    | some jr =>
      let j := cs.length - 1 - jr
      if i ≤ j then some (String.mk ((cs.drop i).take (j + 1 - i)))
      else none

/-- The safe fallback decision the client builds on each failure
path. -/
def fallbackDecision (reason : String) : LLMDecision :=
  ⟨"flat", 0, reason, none, none⟩

/-- `GeminiClient.analyze`, lines 25-58, for a fixed request.  The
prompt affects only the outbound request, never the control flow, so
it is omitted.  `parse` abstracts lines 50-55 (`json.loads` of the
braced substring plus `LLMDecision(**obj)`): that block sits inside
`try/except Exception: pass`, so its entire behaviour collapses to an
arbitrary total `String → Option LLMDecision`, and the theorems below
quantify over every such function. -/
def analyze (parse : String → Option LLMDecision)
    (resp : Except String JVal) : Except PyErr LLMDecision :=
  match resp with
  | .error e => .ok (fallbackDecision ("LLM error: " ++ e))
  | .ok data => do
    let text ← extract_text data
    if text = "" then
      pure (fallbackDecision "No text in LLM response")
    else
      match extract_braced text with
      | some s =>
        match parse s with
        | some d => pure d
        | none => pure (fallbackDecision "Could not parse LLM output")
      | none => pure (fallbackDecision "Could not parse LLM output")

/-- A part is well shaped when it is an object whose `"text"` entry,
if any, is a string. -/
def wellShapedPart (p : JVal) : Bool :=
  match p with
  | .jobj kvs =>
    match kvs.find? (fun kv => kv.1 == "text") with
    | some (_, .jstr _) => true
    | some _ => false
    | none => true
  | _ => false

/-- A candidate is well shaped when it is an object, its `"content"`
entry (defaulting to `{}`) is an object, and that object's `"parts"`
entry (defaulting to `[]`) is an array of well-shaped parts. -/
def wellShapedCand (c : JVal) : Bool :=
  match c with
  | .jobj kvs =>
    match jGetD kvs "content" (.jobj []) with
    | .jobj ckvs =>
      match jGetD ckvs "parts" (.jarr []) with
      | .jarr ps => ps.all wellShapedPart
      | _ => false
    | _ => false
  | _ => false

/-- A response body is well shaped when it is an object whose
`"candidates"` entry (defaulting to `[]`) is an array of well-shaped
candidates.  This is the shape the remote service documents; the
extraction succeeds on every such body. -/
def wellShapedData (data : JVal) : Bool :=
  match data with
  | .jobj kvs =>
    match jGetD kvs "candidates" (.jarr []) with
    | .jarr cs => cs.all wellShapedCand
    | _ => false
  | _ => false

/-! ## Push transport subscriptions (`src/wallex/ws_client.py`)

`_subscriptions` is a Python `set`; `subscribe` adds the channel to it
(line 83).  The `connect` event handler (lines 22-31) iterates
`list(self._subscriptions)` and emits one `subscribe` request per
element; a failing `emit` is caught per channel and the loop
continues, so every element receives exactly one request. -/

/-- The subscription set, modelled as a duplicate-free list. -/
structure WSClientState where
  subscriptions : List String
deriving DecidableEq

/-- `WallexWSClient.subscribe` line 83: `self._subscriptions.add(channel)`
(the `emit` in lines 86-90 does not touch the set). -/
def ws_subscribe (s : WSClientState) (ch : String) : WSClientState :=
  ⟨s.subscriptions.insert ch⟩

/-- The subscription set after a sequence of `subscribe` calls,
starting from the empty set of `__init__`. -/
def ws_run_subscribes (history : List String) : WSClientState :=
  history.foldl ws_subscribe ⟨[]⟩

/-- The channels for which the `connect` handler emits a re-subscribe
request, in iteration order (`for ch in list(self._subscriptions)`). -/
def on_connect_emits (s : WSClientState) : List String :=
  s.subscriptions

/-! ## Helper lemmas -/

lemma handle_trade_reject (llm : Bool) (now : ℕ) (s : BufState) (e : TradeEvent)
    (h1 : extract_ts e ≠ 0) (h2 : extract_ts e ≤ s.last_trade_ts) :
    handle_trade llm now s e = ⟨s, false, false, []⟩ := by
  unfold handle_trade
  rw [if_pos ⟨h1, h2⟩]

lemma handle_trade_wm_mono (llm : Bool) (now : ℕ) (s : BufState) (e : TradeEvent) :
    s.last_trade_ts ≤ (handle_trade llm now s e).state.last_trade_ts := by
  unfold handle_trade
  by_cases h : extract_ts e ≠ 0 ∧ extract_ts e ≤ s.last_trade_ts
  · rw [if_pos h]
  · rw [if_neg h]
    by_cases h0 : extract_ts e = 0
    · simp [h0]
    · have hlt : s.last_trade_ts < extract_ts e := by
        rcases not_and_or.mp h with h1 | h2
        · exact absurd h0 (by simpa using h1)
        · exact lt_of_not_le h2
      simp [h0, le_of_lt hlt]

lemma handle_trade_not_reject (llm : Bool) (now : ℕ) (s : BufState)
    (e : TradeEvent) (h : ¬(extract_ts e ≠ 0 ∧ extract_ts e ≤ s.last_trade_ts)) :
    (handle_trade llm now s e).accepted = true
    ∧ (handle_trade llm now s e).state.recent_trades
      = (if (s.recent_trades ++ [e]).length > 200
          then (s.recent_trades ++ [e]).rtake 200
          else s.recent_trades ++ [e]) := by
  unfold handle_trade
  rw [if_neg h]
  exact ⟨rfl, rfl⟩

lemma rtake_of_length_le {α : Type} {l : List α} {n : ℕ} (h : l.length ≤ n) :
    l.rtake n = l := by
  rw [List.rtake_eq_reverse_take_reverse, List.take_of_length_le (by simpa),
    List.reverse_reverse]

lemma length_rtake {α : Type} (l : List α) (n : ℕ) :
    (l.rtake n).length = min n l.length := by
  rw [List.rtake_eq_reverse_take_reverse]; simp

lemma take_append_take {α : Type} (a b : List α) (n : ℕ) :
    (a ++ b.take n).take n = (a ++ b).take n := by
  rw [List.take_append_eq_append_take, List.take_append_eq_append_take,
    List.take_take, min_eq_left (Nat.sub_le n a.length)]

lemma rtake_append_rtake {α : Type} (a b : List α) (n : ℕ) :
    ((a.rtake n) ++ b).rtake n = (a ++ b).rtake n := by
  rw [List.rtake_eq_reverse_take_reverse, List.rtake_eq_reverse_take_reverse,
    List.rtake_eq_reverse_take_reverse]
  rw [List.reverse_append, List.reverse_reverse, List.reverse_append]
  rw [take_append_take]

lemma handle_trade_accept_rtake (llm : Bool) (now : ℕ) (s : BufState)
    (e : TradeEvent) (h : ¬(extract_ts e ≠ 0 ∧ extract_ts e ≤ s.last_trade_ts)) :
    (handle_trade llm now s e).state.recent_trades
      = (s.recent_trades ++ [e]).rtake 200 := by
  rw [(handle_trade_not_reject llm now s e h).2]
  by_cases hl : (s.recent_trades ++ [e]).length > 200
  · rw [if_pos hl]
  · rw [if_neg hl]
    exact (rtake_of_length_le (by omega)).symm

/-- Invariant of a buffer run: when the window starts within its
bound, it always equals the last 200 of (initial window ++ accepted
events). -/
lemma runBuffer_recent_inv (llm : Bool) (evs : List (ℕ × TradeEvent)) :
    ∀ (s : BufState), s.recent_trades.length ≤ 200 →
      (runBuffer llm s evs).state.recent_trades
        = (s.recent_trades ++ (runBuffer llm s evs).accepted).rtake 200 := by
  induction evs with
  | nil =>
    intro s h
    simp only [runBuffer, List.append_nil]
    exact (rtake_of_length_le h).symm
  | cons ne rest ih =>
    obtain ⟨n, e⟩ := ne
    intro s h
    by_cases hc : extract_ts e ≠ 0 ∧ extract_ts e ≤ s.last_trade_ts
    · have hr := handle_trade_reject llm n s e hc.1 hc.2
      simp only [runBuffer, hr]
      simpa using ih s h
    · have ha := handle_trade_not_reject llm n s e hc
      have hrec := handle_trade_accept_rtake llm n s e hc
      have hlen2 : (handle_trade llm n s e).state.recent_trades.length ≤ 200 := by
        rw [hrec, length_rtake]; omega
      have hmain := ih (handle_trade llm n s e).state hlen2
      simp only [runBuffer, ha.1, if_true]
      rw [hmain, hrec, rtake_append_rtake, List.append_assoc]

/-! ## Claim theorems -/

set_option maxRecDepth 100000 in
/-- C1 (code_bug evidence).  Run 204 events through `handle_trade`,
all accepted (fresh increasing timestamps 1..204) and all with
positive price.  The 204th event completes an accepted count that is
a multiple of 6 with positive price, so per the spec the Decision
Trigger must fire on it — but the code tests `len(recent_trades) % 6`
and the window is capped at 200 (`200 % 6 = 2`), so no trigger fires
on the 204th event, and only 33 triggers (events 6,12,…,198) fire in
the whole run. -/
theorem C1_trigger_starves_after_window_capacity :
    (runBuffer true (buf_init 0) evs204).accepted.length = 204
    ∧ 204 % 6 = 0
    ∧ 0 < extract_price (mkSimpleEvent 204 1)
    ∧ (runBuffer true (buf_init 0) evs204).fires.getLast? = some false
    ∧ (runBuffer true (buf_init 0) evs204).fires.count true = 33 := by
  decide

/-- C2: an event whose extracted timestamp is non-zero and at most
the current Watermark is rejected with no state mutation at all —
Watermark, RecentWindow and Activity Clock are untouched, the event
is not counted as accepted, and the Decision Trigger does not fire. -/
theorem C2_stale_event_rejected (llm : Bool) (now : ℕ) (s : BufState)
    (e : TradeEvent) (h1 : extract_ts e ≠ 0)
    (h2 : extract_ts e ≤ s.last_trade_ts) :
    handle_trade llm now s e = ⟨s, false, false, []⟩ :=
  handle_trade_reject llm now s e h1 h2

theorem C2_stale_event_rejected_witness :
    handle_trade true 7 ⟨10, [], 0⟩ ⟨.num 5, .absent, .absent, .num 1, .absent⟩
      = ⟨⟨10, [], 0⟩, false, false, []⟩ :=
  C2_stale_event_rejected true 7 ⟨10, [], 0⟩
    ⟨.num 5, .absent, .absent, .num 1, .absent⟩ (by decide) (by decide)

/-- C3: across any single `handle_trade` call (hence across any
sequence of calls from either transport) the Watermark never
decreases, and an event with extracted timestamp 0 never changes
it. -/
theorem C3_watermark_monotone (llm : Bool) (now : ℕ) (s : BufState)
    (e : TradeEvent) :
    s.last_trade_ts ≤ (handle_trade llm now s e).state.last_trade_ts
    ∧ (extract_ts e = 0 →
        (handle_trade llm now s e).state.last_trade_ts = s.last_trade_ts) := by
  refine ⟨handle_trade_wm_mono llm now s e, fun h0 => ?_⟩
  unfold handle_trade
  rw [if_neg (by simp [h0])]
  simp [h0]

theorem C3_watermark_monotone_witness :
    (buf_init 3).last_trade_ts
        ≤ (handle_trade true 5 (buf_init 3)
            ⟨.absent, .absent, .absent, .num 1, .absent⟩).state.last_trade_ts
    ∧ (handle_trade true 5 (buf_init 3)
          ⟨.absent, .absent, .absent, .num 1, .absent⟩).state.last_trade_ts
        = (buf_init 3).last_trade_ts :=
  ⟨(C3_watermark_monotone true 5 (buf_init 3)
      ⟨.absent, .absent, .absent, .num 1, .absent⟩).1,
   (C3_watermark_monotone true 5 (buf_init 3)
      ⟨.absent, .absent, .absent, .num 1, .absent⟩).2 (by decide)⟩

/-- C4: after any run from the initial state the RecentWindow is
exactly the last `min (count, 200)` accepted events: it equals
`accepted.rtake 200`, its length is `min count 200` (so never exceeds
200), and it is a suffix of the accepted sequence (insertion order
preserved, oldest evicted first). -/
theorem C4_recent_window_fifo (llm : Bool) (a0 : ℕ)
    (evs : List (ℕ × TradeEvent)) :
    (runBuffer llm (buf_init a0) evs).state.recent_trades
        = (runBuffer llm (buf_init a0) evs).accepted.rtake 200
    ∧ (runBuffer llm (buf_init a0) evs).state.recent_trades.length
        = min (runBuffer llm (buf_init a0) evs).accepted.length 200
    ∧ (runBuffer llm (buf_init a0) evs).state.recent_trades.IsSuffix
        (runBuffer llm (buf_init a0) evs).accepted := by
  have h := runBuffer_recent_inv llm evs (buf_init a0) (by simp [buf_init])
  have h0 : (buf_init a0).recent_trades = [] := rfl
  rw [h0, List.nil_append] at h
  refine ⟨h, ?_, ?_⟩
  · rw [h, length_rtake, Nat.min_comm]
  · rw [h, List.rtake]
    exact List.drop_suffix _ _

/-- Every record fed to the buffer by one poll pass is either
zero-timestamped or strictly newer than the watermark at the moment
it was fed; since the watermark only grows, it is then strictly newer
than the pass's initial watermark. -/
lemma poll_feed_go_fresh (llm : Bool) (now : ℕ) :
    ∀ (l : List TradeEvent) (s : BufState) (e : TradeEvent),
      e ∈ (poll_feed_go llm now s l).2.2 →
      extract_ts e = 0 ∨ s.last_trade_ts < extract_ts e := by
  intro l
  induction l with
  | nil =>
    intro s e he
    simp [poll_feed_go] at he
  | cons tr rest ih =>
    intro s e he
    simp only [poll_feed_go] at he
    by_cases hc : extract_ts tr ≠ 0 ∧ extract_ts tr ≤ s.last_trade_ts
    · rw [if_pos hc] at he
      exact ih s e he
    · rw [if_neg hc] at he
      simp only [List.mem_cons] at he
      rcases he with rfl | hmem
      · rcases not_and_or.mp hc with h1 | h2
        · exact Or.inl (by simpa using h1)
        · exact Or.inr (lt_of_not_le h2)
      · rcases ih (handle_trade llm now s tr).state e hmem with h0 | hlt
        · exact Or.inl h0
        · exact Or.inr (lt_of_le_of_lt (handle_trade_wm_mono llm now s tr) hlt)

/-- The fed records form a sublist of the sorted candidate list. -/
lemma poll_feed_go_sublist (llm : Bool) (now : ℕ) :
    ∀ (l : List TradeEvent) (s : BufState),
      ((poll_feed_go llm now s l).2.2).Sublist l := by
  intro l
  induction l with
  | nil =>
    intro s
    simp [poll_feed_go]
  | cons tr rest ih =>
    intro s
    simp only [poll_feed_go]
    by_cases hc : extract_ts tr ≠ 0 ∧ extract_ts tr ≤ s.last_trade_ts
    · rw [if_pos hc]
      exact (ih s).cons tr
    · rw [if_neg hc]
      exact (ih (handle_trade llm now s tr).state).cons₂ tr

/-- The fed records are in ascending best-effort timestamp order. -/
lemma poll_feed_sorted (llm : Bool) (now : ℕ) (s : BufState)
    (cands : List TradeEvent) :
    ((poll_feed llm now s cands).2.2).Sorted tsLe :=
  (List.sorted_insertionSort tsLe cands).sublist
    (poll_feed_go_sublist llm now (cands.insertionSort tsLe) s)

/-- C6 counterexample: a polled record with no timestamp field has
best-effort timestamp 0, which does not exceed the Watermark 15, yet
the poll pass accepts it and feeds it to the buffer — so "only
records whose timestamp exceeds the current Watermark are accepted"
is false as stated. -/
theorem C6_zero_ts_record_accepted :
    extract_ts ⟨.absent, .absent, .absent, .num 2, .absent⟩ = 0
    ∧ ¬((15 : ℤ) < extract_ts ⟨.absent, .absent, .absent, .num 2, .absent⟩)
    ∧ (poll_feed true 0 ⟨15, [], 0⟩
          [⟨.absent, .absent, .absent, .num 2, .absent⟩]).2.2
        = [⟨.absent, .absent, .absent, .num 2, .absent⟩]
    ∧ (poll_feed true 0 ⟨15, [], 0⟩
          [⟨.absent, .absent, .absent, .num 2, .absent⟩]).2.1 = 1 := by
  decide

/-- C6 amended: the poll pass feeds records in ascending best-effort
timestamp order; a fed record either has timestamp 0 (always
accepted) or strictly exceeds the pass's initial Watermark; and at
the concrete batch with timestamps [30, 10, 20] against Watermark 15,
exactly the records with timestamps 20 and 30 are accepted, in that
order. -/
theorem C6_poll_merge_ordering :
    (∀ (llm : Bool) (now : ℕ) (s : BufState) (cands : List TradeEvent)
        (e : TradeEvent), e ∈ (poll_feed llm now s cands).2.2 →
        extract_ts e = 0 ∨ s.last_trade_ts < extract_ts e)
    ∧ (∀ (llm : Bool) (now : ℕ) (s : BufState) (cands : List TradeEvent),
        ((poll_feed llm now s cands).2.2).Sorted tsLe)
    ∧ (poll_feed true 0 ⟨15, [], 0⟩
          [mkSimpleEvent 30 1, mkSimpleEvent 10 1, mkSimpleEvent 20 1]).2.2
        = [mkSimpleEvent 20 1, mkSimpleEvent 30 1]
    ∧ (poll_feed true 0 ⟨15, [], 0⟩
          [mkSimpleEvent 30 1, mkSimpleEvent 10 1, mkSimpleEvent 20 1]).2.1
        = 2 := by
  refine ⟨?_, ?_, by decide, by decide⟩
  · intro llm now s cands e he
    exact poll_feed_go_fresh llm now (cands.insertionSort tsLe) s e he
  · intro llm now s cands
    exact poll_feed_sorted llm now s cands

theorem C6_poll_merge_ordering_witness :
    extract_ts (mkSimpleEvent 20 1) = 0
      ∨ (15 : ℤ) < extract_ts (mkSimpleEvent 20 1) :=
  C6_poll_merge_ordering.1 true 0 ⟨15, [], 0⟩
    [mkSimpleEvent 30 1, mkSimpleEvent 10 1, mkSimpleEvent 20 1]
    (mkSimpleEvent 20 1) (by decide)

/-- `_format_quantity` at the nominal sizing input 10/50000: the
rounded quantity is exactly 0.0002. -/
lemma format_quantity_btc : format_quantity ((1 : ℚ) / 5000) = 1/5000 := by
  simp only [format_quantity, pyRound6]
  norm_num

/-- `_format_quantity` at 0.0000005: the 6-decimal rounding lands on
the 0.5 tie, ties-to-even rounds down to 0 (the binary double at this
input sits just below the tie and also formats to `0.000000`). -/
lemma format_quantity_tiny : format_quantity ((1 : ℚ) / 2000000) = 0 := by
  simp only [format_quantity, pyRound6]
  norm_num

/-- C5: the Sizing Engine produces no order on a `"flat"` action at
any price, no order at any non-positive price, a BUY Market order of
quantity 0.0002 for budget 10 at price 50000 on `"long"`, and no
order for budget 0.0000005 at price 1 (rounded quantity below the
0.000001 minimum). -/
theorem C5_decide_order_cases :
    (∀ (eng : TradingEngine) (price : ℚ) (d : LLMDecision),
        d.action = "flat" → decide_order eng price d = none)
    ∧ (∀ (eng : TradingEngine) (price : ℚ) (d : LLMDecision),
        price ≤ 0 → decide_order eng price d = none)
    ∧ decide_order ⟨"BTCUSDT", 10⟩ 50000 ⟨"long", 1, "r", none, none⟩
        = some ⟨"BTCUSDT", "BUY", "MARKET", 1/5000, none⟩
    ∧ decide_order ⟨"BTCUSDT", mkRat 1 2000000⟩ 1 ⟨"long", 1, "r", none, none⟩
        = none := by
  refine ⟨?_, ?_, ?_, ?_⟩
  · intro eng price d h
    simp [decide_order, h]
  · intro eng price d h
    by_cases hf : d.action = "flat"
    · simp [decide_order, hf]
    · simp [decide_order, hf, h]
  · simp only [decide_order]
    norm_num [format_quantity_btc]
    decide
  · simp only [decide_order]
    rw [show ((mkRat 1 2000000 : ℚ)) = 1/2000000 by rw [Rat.mkRat_eq_div]; norm_num]
    norm_num [format_quantity_tiny]

theorem C5_decide_order_cases_witness :
    decide_order ⟨"BTCUSDT", 10⟩ 50000 ⟨"flat", 0, "r", none, none⟩ = none
    ∧ decide_order ⟨"BTCUSDT", 10⟩ 0 ⟨"long", 0, "r", none, none⟩ = none :=
  ⟨C5_decide_order_cases.1 ⟨"BTCUSDT", 10⟩ 50000 ⟨"flat", 0, "r", none, none⟩ rfl,
   C5_decide_order_cases.2.1 ⟨"BTCUSDT", 10⟩ 0 ⟨"long", 0, "r", none, none⟩ le_rfl⟩

/-- C10: `decide_order` treats every action string other than exactly
`"flat"` and `"long"` (e.g. an unvalidated `"hold"` coming straight
from the remote JSON) as a sell: with positive price and sufficient
budget it emits a SELL Market order; and a BUY order can only arise
from the exact action `"long"`. -/
theorem C10_unvalidated_action_sells :
    (∀ (eng : TradingEngine) (price : ℚ) (d : LLMDecision),
        d.action ≠ "flat" → d.action ≠ "long" → 0 < price →
        0 < format_quantity (eng.quote_amount / price) →
        decide_order eng price d
          = some ⟨eng.symbol, "SELL", "MARKET",
              format_quantity (eng.quote_amount / price), none⟩)
    ∧ (∀ (eng : TradingEngine) (price : ℚ) (d : LLMDecision)
        (o : OrderRequest), decide_order eng price d = some o →
        o.side = "BUY" → d.action = "long") := by
  constructor
  · intro eng price d h1 h2 h3 h4
    simp only [decide_order]
    rw [if_neg h1, if_neg (not_le.mpr h3), if_neg (not_le.mpr h4), if_neg h2]
  · intro eng price d o ho hb
    by_contra hl
    simp only [decide_order] at ho
    rw [if_neg hl] at ho
    split_ifs at ho with h1 h2 h3
    all_goals
      first
        | exact Option.noConfusion ho
        | (obtain rfl := (Option.some.injEq _ _).mp ho; simp at hb)

theorem C10_unvalidated_action_sells_witness :
    decide_order ⟨"BTCUSDT", 10⟩ 50000 ⟨"hold", 1, "r", none, none⟩
      = some ⟨"BTCUSDT", "SELL", "MARKET",
          format_quantity ((10 : ℚ) / 50000), none⟩ :=
  C10_unvalidated_action_sells.1 ⟨"BTCUSDT", 10⟩ 50000
    ⟨"hold", 1, "r", none, none⟩ (by decide) (by decide) (by norm_num)
    (by norm_num [format_quantity_btc])

/-! ## C7 helper lemmas: the extraction succeeds on well-shaped
bodies -/

lemma partStep_ok (p : JVal) (hp : wellShapedPart p = true) (t : String) :
    ∃ t2, partStep t p = Except.ok t2 := by
  cases p with
  | jobj kvs =>
    cases hfind : kvs.find? (fun kv => kv.1 == "text") with
    | none =>
      have hany : kvs.any (fun kv => kv.1 == "text") = false := by
        simp only [List.any_eq_false]
        intro x hx
        have := List.find?_eq_none.mp hfind x hx
        simpa using this
      exact ⟨t, by simp [partStep, pyContainsText, hany, Bind.bind, Except.bind,
        Pure.pure, Except.pure]⟩
    | some kv =>
      obtain ⟨a, v⟩ := kv
      have hv : ∃ s, v = JVal.jstr s := by
        simp only [wellShapedPart] at hp
        rw [hfind] at hp
        cases v <;> simp at hp ⊢
      obtain ⟨s, rfl⟩ := hv
      have hmem := List.mem_of_find?_eq_some hfind
      have hpred := List.find?_some hfind
      have hany : kvs.any (fun kv => kv.1 == "text") = true :=
        List.any_eq_true.mpr ⟨(a, JVal.jstr s), hmem, hpred⟩
      exact ⟨t ++ s ++ "\n",
        by simp [partStep, pyContainsText, pyIndexText, hany, hfind, Bind.bind,
          Except.bind, Pure.pure, Except.pure]⟩
  | jnull => simp [wellShapedPart] at hp
  | jbool b => simp [wellShapedPart] at hp
  | jnum v => simp [wellShapedPart] at hp
  | jstr s => simp [wellShapedPart] at hp
  | jarr xs => simp [wellShapedPart] at hp

lemma foldlM_partStep_ok : ∀ (ps : List JVal) (t : String),
    ps.all wellShapedPart = true → ∃ t2, ps.foldlM partStep t = Except.ok t2 := by
  intro ps
  induction ps with
  | nil => intro t _; exact ⟨t, rfl⟩
  | cons p ps ih =>
    intro t hall
    rw [List.all_cons, Bool.and_eq_true] at hall
    obtain ⟨t1, ht1⟩ := partStep_ok p hall.1 t
    obtain ⟨t2, ht2⟩ := ih t1 hall.2
    exact ⟨t2, by rw [List.foldlM_cons, ht1]; simpa [Bind.bind, Except.bind] using ht2⟩

lemma candStep_ok (c : JVal) (hc : wellShapedCand c = true) (t : String) :
    ∃ t2, candStep t c = Except.ok t2 := by
  simp only [wellShapedCand] at hc
  split at hc
  · rename_i kvs
    split at hc
    · rename_i ckvs hcontent
      split at hc
      · rename_i ps hparts
        obtain ⟨t2, ht2⟩ := foldlM_partStep_ok ps t hc
        exact ⟨t2, by simp [candStep, pyGet, hcontent, hparts, pyIter, ht2, Bind.bind,
          Except.bind, Pure.pure, Except.pure]⟩
      · exact absurd hc (by simp)
    · exact absurd hc (by simp)
  · exact absurd hc (by simp)

lemma foldlM_candStep_ok : ∀ (cs : List JVal) (t : String),
    cs.all wellShapedCand = true → ∃ t2, cs.foldlM candStep t = Except.ok t2 := by
  intro cs
  induction cs with
  | nil => intro t _; exact ⟨t, rfl⟩
  | cons c cs ih =>
    intro t hall
    rw [List.all_cons, Bool.and_eq_true] at hall
    obtain ⟨t1, ht1⟩ := candStep_ok c hall.1 t
    obtain ⟨t2, ht2⟩ := ih t1 hall.2
    exact ⟨t2, by rw [List.foldlM_cons, ht1]; simpa [Bind.bind, Except.bind] using ht2⟩

lemma extract_text_ok (data : JVal) (hd : wellShapedData data = true) :
    ∃ t, extract_text data = Except.ok t := by
  simp only [wellShapedData] at hd
  split at hd
  · rename_i kvs
    split at hd
    · rename_i cs hcands
      obtain ⟨t, ht⟩ := foldlM_candStep_ok cs "" hd
      exact ⟨t, by simp [extract_text, pyGet, hcands, pyIter, ht, Bind.bind, Except.bind,
        Pure.pure, Except.pure]⟩
    · exact absurd hd (by simp)
  · exact absurd hd (by simp)

/-- C7 counterexample: a response whose JSON body is an array (not an
object) makes `analyze` raise an uncaught `AttributeError` at
`data.get("candidates", [])` — the `except` clause only catches
`requests.RequestException`, so "analyze never raises for every
response content" is false as stated. -/
theorem C7_array_body_raises :
    analyze (fun _ => none) (Except.ok (JVal.jarr []))
      = Except.error PyErr.attributeError := rfl

/-- C7 amended: `analyze` never raises on remote-call failures
(returning the Flat/0.0 "LLM error" fallback) and never raises on any
well-shaped response body (object with array-of-objects candidates,
object contents, array parts whose `"text"` entries are strings);
there the result is either a parsed decision or one of the Flat/0.0
fallback decisions ("No text in LLM response" / "Could not parse LLM
output").  Ill-shaped bodies, however, can raise. -/
theorem C7_analyze_fallbacks :
    (∀ (parse : String → Option LLMDecision) (e : String),
        analyze parse (Except.error e)
          = Except.ok (fallbackDecision ("LLM error: " ++ e)))
    ∧ (∀ (parse : String → Option LLMDecision) (data : JVal),
        wellShapedData data = true →
        ∃ d, analyze parse (Except.ok data) = Except.ok d
          ∧ ((∃ s, parse s = some d)
             ∨ (d.action = "flat" ∧ d.confidence = 0))) := by
  refine ⟨fun _ _ => rfl, ?_⟩
  intro parse data hd
  obtain ⟨t, ht⟩ := extract_text_ok data hd
  by_cases h0 : t = ""
  · exact ⟨fallbackDecision "No text in LLM response",
      by simp [analyze, ht, h0, Bind.bind, Except.bind, Pure.pure, Except.pure],
      Or.inr ⟨rfl, rfl⟩⟩
  · cases hb : extract_braced t with
    | none =>
      exact ⟨fallbackDecision "Could not parse LLM output",
        by simp [analyze, ht, h0, hb, Bind.bind, Except.bind, Pure.pure, Except.pure],
        Or.inr ⟨rfl, rfl⟩⟩
    | some s =>
      cases hp : parse s with
      | none =>
        exact ⟨fallbackDecision "Could not parse LLM output",
          by simp [analyze, ht, h0, hb, hp, Bind.bind, Except.bind, Pure.pure,
            Except.pure],
          Or.inr ⟨rfl, rfl⟩⟩
      | some d =>
        exact ⟨d,
          by simp [analyze, ht, h0, hb, hp, Bind.bind, Except.bind, Pure.pure,
            Except.pure],
          Or.inl ⟨s, hp⟩⟩

theorem C7_analyze_fallbacks_witness :
    analyze (fun _ => none) (Except.error "boom")
        = Except.ok (fallbackDecision "LLM error: boom")
    ∧ ∃ d, analyze (fun _ => none) (Except.ok (JVal.jobj [])) = Except.ok d
        ∧ ((∃ s, (fun _ : String => (none : Option LLMDecision)) s = some d)
           ∨ (d.action = "flat" ∧ d.confidence = 0)) :=
  ⟨C7_analyze_fallbacks.1 (fun _ => none) "boom",
   C7_analyze_fallbacks.2 (fun _ => none) (JVal.jobj []) rfl⟩

/-! ## C8: reconnection re-subscribes each tracked channel once -/

lemma ws_run_subscribes_inv :
    ∀ (history : List String) (s : WSClientState), s.subscriptions.Nodup →
      ((history.foldl ws_subscribe s).subscriptions.Nodup
        ∧ ∀ ch, ch ∈ (history.foldl ws_subscribe s).subscriptions
            ↔ ch ∈ history ∨ ch ∈ s.subscriptions) := by
  intro history
  induction history with
  | nil =>
    intro s h
    exact ⟨h, fun ch => by simp⟩
  | cons a rest ih =>
    intro s h
    rw [List.foldl_cons]
    have h2 : (ws_subscribe s a).subscriptions.Nodup := h.insert
    obtain ⟨hn, hm⟩ := ih (ws_subscribe s a) h2
    refine ⟨hn, fun ch => ?_⟩
    rw [hm ch]
    simp only [ws_subscribe, List.mem_insert_iff, List.mem_cons]
    tauto

/-- C8: after any sequence of `subscribe` calls, the subscription set
holds exactly the channels ever subscribed, without duplicates, and
the `connect` handler emits exactly one re-subscribe request for each
channel in the set. -/
theorem C8_reconnect_resubscribes_once (history : List String) (ch : String) :
    (ws_run_subscribes history).subscriptions.Nodup
    ∧ (ch ∈ (ws_run_subscribes history).subscriptions ↔ ch ∈ history)
    ∧ (ch ∈ history →
        (on_connect_emits (ws_run_subscribes history)).count ch = 1) := by
  obtain ⟨hn, hm⟩ := ws_run_subscribes_inv history ⟨[]⟩ List.nodup_nil
  have hiff : ch ∈ (ws_run_subscribes history).subscriptions ↔ ch ∈ history := by
    rw [ws_run_subscribes, hm ch]
    simp
  refine ⟨hn, hiff, fun hch => ?_⟩
  exact List.count_eq_one_of_mem hn (hiff.mpr hch)

theorem C8_reconnect_resubscribes_once_witness :
    (on_connect_emits (ws_run_subscribes ["BTCUSDT@trade"])).count
      "BTCUSDT@trade" = 1 :=
  (C8_reconnect_resubscribes_once ["BTCUSDT@trade"] "BTCUSDT@trade").2.2
    (by simp)
